import Mathlib

/-!
Shallow embedding of the game-state simulation of `src/game.py` (a single-file
Tetris clone) and proofs of the specification claims about it.

Conventions of the embedding:
* Python lists become Lean lists; the board is a list of rows, each a list of
  `Option PieceKind` (`none` = empty cell).
* Grid coordinates are `Int`, as the active piece may sit above the visible
  area (negative `y`) and wall-kick offsets are negative.
* External inputs (the pygame clock `pygame.time.get_ticks()`, the held-key
  state) are explicit parameters of the operations that read them.
* `random.shuffle` is a library call; it is modelled by an oracle-driven
  selection shuffle whose output is, for every oracle, a permutation of its
  input — the only property of the library the program relies on.  The state
  carries a family of oracles `seeds`, one per bag refill.
* The float expression `int(BASE_FALL_MS * LEVEL_SPEEDUP ** level)` is
  modelled in exact arithmetic as `(800 * 17 ^ level) / 20 ^ level` over `Nat`
  (Nat division floors, `0.85 = 17/20`).
-/

set_option maxHeartbeats 1000000

namespace Pytris

/-- The seven tetromino kinds, in the order of the `SHAPES` table. -/
inductive PieceKind where
  | I | J | L | O | S | T | Z
deriving DecidableEq, Fintype

/-- A rotation-state matrix (`0` = empty, nonzero = filled), as in `SHAPES`. -/
abbrev Mat := List (List Nat)

def COLS : Nat := 10

def ROWS : Nat := 20

def BASE_FALL_MS : Nat := 800

def SOFT_DROP_MS : Nat := 40

def LOCK_DELAY_MS : Nat := 500

def SOFT_DROP_SCORE : Nat := 1

def HARD_DROP_SCORE : Nat := 2

/-- The `SCORES` dict accessed with `.get(cleared, 0)`. -/
def SCORES : Nat → Nat
  | 1 => 100
  | 2 => 300
  | 3 => 500
  | 4 => 800
  | _ => 0

/-- The base rotation matrices of `SHAPES` in `game.py`. -/
def SHAPES : PieceKind → List Mat
  | .I => [[[0,0,0,0],
            [1,1,1,1],
            [0,0,0,0],
            [0,0,0,0]],
           [[0,0,1,0],
            [0,0,1,0],
            [0,0,1,0],
            [0,0,1,0]]]
  | .J => [[[1,0,0],
            [1,1,1],
            [0,0,0]]]
  | .L => [[[0,0,1],
            [1,1,1],
            [0,0,0]]]
  | .O => [[[1,1],
            [1,1]]]
  | .S => [[[0,1,1],
            [1,1,0],
            [0,0,0]]]
  | .T => [[[0,1,0],
            [1,1,1],
            [0,0,0]]]
  | .Z => [[[1,1,0],
            [0,1,1],
            [0,0,0]]]

/-- `[list(r) for r in zip(*current[::-1])]`: rotate a matrix 90° clockwise. -/
def rotateCWMat (m : Mat) : Mat := m.reverse.transpose

/-- The duplicate-removing accumulation used in `rotations_from_matrix` and in
the `PIECES` build loop (keeps the first occurrence). -/
def uniq (l : List Mat) : List Mat :=
  l.foldl (fun acc r => if r ∈ acc then acc else acc ++ [r]) []

/-- `rotations_from_matrix`: the four clockwise rotations of `m`, duplicates
removed. -/
def rotations_from_matrix (m : Mat) : List Mat :=
  uniq [m, rotateCWMat m, rotateCWMat (rotateCWMat m),
        rotateCWMat (rotateCWMat (rotateCWMat m))]

/-- The `PIECES` table built from `SHAPES` at import time. -/
def PIECES (k : PieceKind) : List Mat :=
  let v := SHAPES k
  if v.length > 1 then uniq (v.flatMap rotations_from_matrix)
  else rotations_from_matrix (v.headD [])

/-- `PIECE_KEYS = list(PIECES.keys())`, in insertion order I,J,L,O,S,T,Z. -/
def PIECE_KEYS : List PieceKind := [.I, .J, .L, .O, .S, .T, .Z]

/-- The active piece: `Piece` of `game.py`.  Its `shape` field is kept
derived (`Piece.shape`), which the Python code maintains as an invariant. -/
structure Piece where
  kind : PieceKind
  rotIndex : Nat
  x : Int
  y : Int
deriving DecidableEq

def Piece.shape_list (p : Piece) : List Mat := PIECES p.kind

def Piece.shape (p : Piece) : Mat := p.shape_list.getD p.rotIndex []

/-- `Piece.__init__`: rotation 0, spawned near the top centre. -/
def mkPiece (k : PieceKind) : Piece :=
  let shape : Mat := (PIECES k).getD 0 []
  { kind := k
    rotIndex := 0
    x := (↑(COLS / 2) : Int) - ↑((shape.getD 0 []).length / 2)
    y := - ((shape.length : Int) - 1) }

/-- `Piece.rotate`: step the rotation index modulo the number of rotation
states (`(i - 1) % n` in Python equals `(i + (n - 1)) % n` on naturals). -/
def Piece.rotate (p : Piece) (cw : Bool) : Piece :=
  let n := p.shape_list.length
  if cw then { p with rotIndex := (p.rotIndex + 1) % n }
  else { p with rotIndex := (p.rotIndex + (n - 1)) % n }

/-- The `(column, row)` pairs of the filled entries of a matrix, in the
row-major order of the Python double loop. -/
def shape_cells (m : Mat) : List (Nat × Nat) :=
  m.enum.flatMap fun rr => rr.2.enum.filterMap fun cv =>
    if cv.2 ≠ 0 then some (cv.1, rr.1) else none

/-- `Piece.get_cells`: absolute board coordinates of the filled cells. -/
def Piece.get_cells (p : Piece) (xo yo : Int) : List (Int × Int) :=
  (shape_cells p.shape).map fun cr => (p.x + ↑cr.1 + xo, p.y + ↑cr.2 + yo)

abbrev Board := List (List (Option PieceKind))

/-- `GameState.collision`: the piece, offset by `(xo, yo)`, is out of bounds
or overlaps a filled board cell. -/
def collision (b : Board) (p : Piece) (xo yo : Int) : Bool :=
  (p.get_cells xo yo).any fun c =>
    decide (c.1 < 0) || decide ((COLS : Int) ≤ c.1) || decide ((ROWS : Int) ≤ c.2) ||
      (decide (0 ≤ c.2) && ((b.getD c.2.toNat []).getD c.1.toNat none).isSome)

/-- A bounds-checked cell read: `none` when the index falls outside the
stored board, otherwise the cell. -/
def readCell (b : Board) (y x : Int) : Option (Option PieceKind) :=
  if 0 ≤ y ∧ y.toNat < b.length ∧ 0 ≤ x ∧ x.toNat < (b.getD y.toNat []).length then
    some ((b.getD y.toNat []).getD x.toNat none)
  else none

/-- `collision` with every `board[y][x]` access replaced by the checked
`readCell`; `none` signals an out-of-range access. -/
def collisionCheckedList (b : Board) : List (Int × Int) → Option Bool
  | [] => some false
  | c :: rest =>
    if c.1 < 0 ∨ (COLS : Int) ≤ c.1 then some true
    else if (ROWS : Int) ≤ c.2 then some true
    else if 0 ≤ c.2 then
      match readCell b c.2 c.1 with
      | none => none
      | some cell => if cell.isSome then some true else collisionCheckedList b rest
    else collisionCheckedList b rest

def collisionChecked (b : Board) (p : Piece) (xo yo : Int) : Option Bool :=
  collisionCheckedList b (p.get_cells xo yo)

/-- Model of the library call `random.shuffle`: an oracle-driven selection
shuffle.  At each step the oracle `g`, queried at the number of remaining
elements, picks which remaining element comes next; for every oracle the
result is a permutation of the input, which is the documented behaviour of
`random.shuffle` and the only property the program relies on.  The fuel
argument (initially the length) makes the recursion structural. -/
def shuffleGo (g : Nat → Nat) : Nat → List PieceKind → List PieceKind
  | 0, _ => []
  | _, [] => []
  | fuel+1, k :: rest =>
      let l := k :: rest
      let j := g l.length % l.length
      l.getD j .I :: shuffleGo g fuel (l.eraseIdx j)

def shuffle (g : Nat → Nat) (l : List PieceKind) : List PieceKind :=
  shuffleGo g l.length l

/-- `new_bag`: a shuffled copy of `PIECE_KEYS`. -/
def new_bag (g : Nat → Nat) : List PieceKind := shuffle g PIECE_KEYS

/-- `GameState` of `game.py`.  `seeds n` is the shuffle oracle used by the
`n`-th call to `new_bag`; `refills` counts those calls. -/
structure GameState where
  board : Board
  bag : List PieceKind
  next_queue : List PieceKind
  active : Piece
  hold : Option PieceKind
  hold_used : Bool
  last_fall : Nat
  fall_ms : Nat
  paused : Bool
  game_over : Bool
  score : Nat
  lines : Nat
  level : Nat
  grounded : Bool
  lock_start : Option Nat
  lock_resets_left : Nat
  seeds : Nat → Nat → Nat
  refills : Nat

/-- `GameState._fill_next`: refill the bag when (and only when) it is empty,
then move the front of the bag to the back of the next-piece queue.  The `[]`
branch is dead code: `new_bag` always returns seven kinds. -/
def fill_next (s : GameState) : GameState :=
  let bag := if s.bag.isEmpty then new_bag (s.seeds s.refills) else s.bag
  let refills := if s.bag.isEmpty then s.refills + 1 else s.refills
  match bag with
  | [] => { s with refills := refills, bag := [] }
  | k :: rest => { s with bag := rest, next_queue := s.next_queue ++ [k], refills := refills }

/-- `GameState._spawn_from_queue`: pop a kind from the queue (after topping it
up if empty), refill the queue by one, and build the piece.  The `[]` branch
is dead code: `fill_next` always leaves the queue nonempty. -/
def spawn_from_queue (s : GameState) : Piece × GameState :=
  let s := if s.next_queue.isEmpty then fill_next s else s
  match s.next_queue with
  | [] => (mkPiece .I, s)
  | k :: rest => (mkPiece k, fill_next { s with next_queue := rest })

/-- `max(80, int(BASE_FALL_MS * LEVEL_SPEEDUP ** level))` in exact
arithmetic: `0.85 = 17/20`, and Nat division floors the positive product. -/
def fallMsOf (level : Nat) : Nat := max 80 (BASE_FALL_MS * 17 ^ level / 20 ^ level)

/-- `GameState.reset_lock_timer`: restart the lock timer, at most 15 times. -/
def reset_lock_timer (s : GameState) (now : Nat) : GameState :=
  if s.lock_resets_left > 0 then
    { s with lock_start := some now, lock_resets_left := s.lock_resets_left - 1 }
  else s

/-- The wall-kick offsets tried in order by `try_rotate_with_kick`. -/
def kicks : List (Int × Int) := [(0,0), (-1,0), (1,0), (-2,0), (2,0), (0,-1)]

/-- `GameState.try_rotate_with_kick`: rotate tentatively, apply the first
non-colliding kick offset (resetting the lock timer when grounded), or revert
the rotation and report failure. -/
def try_rotate_with_kick (s : GameState) (cw : Bool) (now : Nat) : Bool × GameState :=
  let rotated := s.active.rotate cw
  match kicks.find? (fun k => !collision s.board rotated k.1 k.2) with
  | some k =>
      let s := { s with active := { rotated with x := rotated.x + k.1, y := rotated.y + k.2 } }
      (true, if s.grounded then reset_lock_timer s now else s)
  | none => (false, s)

/-- `board[y][x] = v` (a no-op outside the stored board, cf. the checked
variants used for the bounds-safety claim). -/
def setCell (b : Board) (y x : Nat) (v : Option PieceKind) : Board :=
  b.set y ((b.getD y []).set x v)

/-- The cells `lock_piece` writes: the active piece's cells whose row passes
the `0 <= y < ROWS` guard. -/
def lock_writes (p : Piece) : List (Int × Int) :=
  (p.get_cells 0 0).filter fun c => decide (0 ≤ c.2) && decide (c.2 < (ROWS : Int))

/-- `GameState.clear_lines_and_score`: drop the full rows, prepend as many
empty rows, and update score, line count, level and fall interval. -/
def clear_lines_and_score (s : GameState) : GameState :=
  let new_board := s.board.filter fun row => row.any fun c => c.isNone
  let cleared := ROWS - new_board.length
  if cleared > 0 then
    let board := List.replicate cleared (List.replicate COLS (none : Option PieceKind)) ++ new_board
    let lines := s.lines + cleared
    let level := lines / 10
    { s with board := board, score := s.score + SCORES cleared * (s.level + 1),
             lines := lines, level := level, fall_ms := fallMsOf level }
  else s

/-- The `for (x, y) in self.active.get_cells(): if 0 <= y < ROWS:
board[y][x] = kind` loop of `lock_piece`. -/
def locked_board (s : GameState) : Board :=
  (lock_writes s.active).foldl
    (fun acc c => setCell acc c.2.toNat c.1.toNat (some s.active.kind)) s.board

/-- `GameState.lock_piece`: stamp the active piece into the board, clear
lines, spawn the next piece, reset hold/lock bookkeeping, and flag game over
when the fresh piece collides. -/
def lock_piece (s : GameState) : GameState :=
  let s1 := clear_lines_and_score { s with board := locked_board s }
  let ps := spawn_from_queue s1
  let s2 := { ps.2 with
    active := ps.1
    hold_used := false
    grounded := false
    lock_start := none
    lock_resets_left := 15 }
  if collision s2.board s2.active 0 0 then { s2 with game_over := true } else s2

/-- The `while not self.collision(...): self.active.y += 1` loop of
`hard_drop`, made structural with fuel; `hard_drop` passes enough fuel for
any piece with at least one filled cell to reach a collision. -/
def drop_loop (b : Board) : Nat → Piece → Nat → Piece × Nat
  | 0, p, acc => (p, acc)
  | fuel+1, p, acc =>
      if collision b p 0 1 then (p, acc)
      else drop_loop b fuel { p with y := p.y + 1 } (acc + 1)

/-- `GameState.hard_drop`: drop to the floor, add 2 points per row, lock. -/
def hard_drop (s : GameState) : GameState :=
  let pd := drop_loop s.board (ROWS + s.active.y.natAbs + 1) s.active 0
  lock_piece { s with active := pd.1, score := s.score + HARD_DROP_SCORE * pd.2 }

/-- `GameState.soft_drop`: move down one row (and score 1) if free. -/
def soft_drop (s : GameState) : GameState :=
  if !collision s.board s.active 0 1 then
    { s with active := { s.active with y := s.active.y + 1 },
             score := s.score + SOFT_DROP_SCORE }
  else s

/-- `GameState.hold_action`: at most once per spawn, swap the active piece
with the hold slot (spawning from the queue when the slot is empty), move the
piece back to the spawn position, reset the lock bookkeeping, and flag game
over when the repositioned piece collides. -/
def hold_action (s : GameState) : GameState :=
  if s.hold_used then s
  else
    let s0 := { s with hold_used := true }
    let s1 :=
      match s0.hold with
      | none =>
          let ps := spawn_from_queue s0
          { ps.2 with hold := some s0.active.kind, active := ps.1 }
      | some temp =>
          { s0 with hold := some s0.active.kind, active := mkPiece temp }
    let p := s1.active
    let s2 := { s1 with
      active := { p with x := (↑(COLS / 2) : Int) - ↑((p.shape.getD 0 []).length / 2),
                         y := - ((p.shape.length : Int) - 1) },
      grounded := false, lock_start := none, lock_resets_left := 15 }
    if collision s2.board s2.active 0 0 then { s2 with game_over := true } else s2

/-- `if self.lock_start and now - self.lock_start >= LOCK_DELAY_MS` — note
that a `lock_start` of `0` is falsy in Python. -/
def lockStartExpired (ls : Option Nat) (now : Nat) : Bool :=
  match ls with
  | none => false
  | some t => decide (t ≠ 0) && decide ((LOCK_DELAY_MS : Int) ≤ (now : Int) - (t : Int))

/-- `GameState.tick`: advance gravity and lock-delay.  `now` is the pygame
clock, `down` whether the soft-drop key is held. -/
def tick (s : GameState) (now : Nat) (down : Bool) : GameState :=
  if s.game_over || s.paused then { s with last_fall := now }
  else
    let falling_interval := if down then SOFT_DROP_MS else s.fall_ms
    if (falling_interval : Int) ≤ (now : Int) - (s.last_fall : Int) then
      let s1 :=
        if !collision s.board s.active 0 1 then
          { s with active := { s.active with y := s.active.y + 1 },
                   grounded := false, lock_start := none }
        else
          let sg := if !s.grounded then { s with grounded := true, lock_start := some now } else s
          if lockStartExpired sg.lock_start now then lock_piece sg else sg
      { s1 with last_fall := now }
    else s

/-- Whether this call to `tick` takes the lock-delay-expired branch and locks
the piece. -/
def tickLocks (s : GameState) (now : Nat) (down : Bool) : Bool :=
  if s.game_over || s.paused then false
  else
    let falling_interval := if down then SOFT_DROP_MS else s.fall_ms
    if (falling_interval : Int) ≤ (now : Int) - (s.last_fall : Int) then
      if !collision s.board s.active 0 1 then false
      else
        let sg := if !s.grounded then { s with grounded := true, lock_start := some now } else s
        lockStartExpired sg.lock_start now
    else false

/-- The `K_LEFT`/`K_a` handler of the main loop. -/
def move_left (s : GameState) (now : Nat) : GameState :=
  if !collision s.board s.active (-1) 0 then
    let s := { s with active := { s.active with x := s.active.x - 1 } }
    if s.grounded then reset_lock_timer s now else s
  else s

/-- The `K_RIGHT`/`K_d` handler of the main loop. -/
def move_right (s : GameState) (now : Nat) : GameState :=
  if !collision s.board s.active 1 0 then
    let s := { s with active := { s.active with x := s.active.x + 1 } }
    if s.grounded then reset_lock_timer s now else s
  else s

/-- The field values `GameState.__init__` assigns before the five queue
fills and the first spawn. -/
def init0 (seeds : Nat → Nat → Nat) (now : Nat) : GameState where
  board := List.replicate ROWS (List.replicate COLS none)
  bag := new_bag (seeds 0)
  next_queue := []
  active := mkPiece .I
  hold := none
  hold_used := false
  last_fall := now
  fall_ms := BASE_FALL_MS
  paused := false
  game_over := false
  score := 0
  lines := 0
  level := 0
  grounded := false
  lock_start := none
  lock_resets_left := 15
  seeds := seeds
  refills := 1

/-- `GameState.__init__`: empty board, a fresh bag, five queue fills, one
spawn, zeroed counters.  The placeholder active piece of `init0` is
overwritten by the spawn, as in the constructor. -/
def initState (seeds : Nat → Nat → Nat) (now : Nat) : GameState :=
  let s1 := fill_next (fill_next (fill_next (fill_next (fill_next (init0 seeds now)))))
  let ps := spawn_from_queue s1
  { ps.2 with active := ps.1 }

/-- One user-visible operation of the main loop. -/
inductive Step : GameState → GameState → Prop where
  | hold (s) : Step s (hold_action s)
  | rotCW (s now) : Step s (try_rotate_with_kick s true now).2
  | rotCCW (s now) : Step s (try_rotate_with_kick s false now).2
  | hardDrop (s) : Step s (hard_drop s)
  | softDrop (s) : Step s (soft_drop s)
  | moveL (s now) : Step s (move_left s now)
  | moveR (s now) : Step s (move_right s now)
  | pause (s) : Step s { s with paused := !s.paused }
  | tickStep (s now down) : Step s (tick s now down)

/-- States reachable from a fresh `GameState` by main-loop operations
(restart produces a fresh initial state and is covered by `init`). -/
inductive Reachable : GameState → Prop where
  | init (seeds now) : Reachable (initState seeds now)
  | step {s s'} : Reachable s → Step s s' → Reachable s'

/-- All filled cells of the piece have in-range column coordinates. -/
def pieceXOK (p : Piece) : Prop :=
  ∀ cr ∈ shape_cells p.shape, 0 ≤ p.x + ↑cr.1 ∧ p.x + ↑cr.1 < (COLS : Int)

/-- The board physically stores `ROWS` rows of `COLS` cells. -/
def boardWF (b : Board) : Prop :=
  b.length = ROWS ∧ ∀ row ∈ b, row.length = COLS

/-- The state invariant established by the constructor and preserved by every
main-loop operation. -/
def Inv (s : GameState) : Prop :=
  boardWF s.board ∧ pieceXOK s.active ∧ s.level = s.lines / 10 ∧
    s.fall_ms = fallMsOf s.level ∧ s.lock_resets_left ≤ 15

/-- The number of completely filled rows of a board. -/
def fullRows (b : Board) : Nat := (b.filter fun row => row.all fun c => c.isSome).length

/-- A concrete state with an empty bag (for bag-refill witnesses). -/
def c2state : GameState := { init0 (fun _ _ => 0) 0 with bag := [] }

/-- A concrete state with a full bottom row and nine cleared lines: clearing
its line raises the level and lowers the fall interval. -/
def c7state : GameState := { init0 (fun _ _ => 0) 0 with
  board := List.replicate 19 (List.replicate COLS (none : Option PieceKind)) ++
    [List.replicate COLS (some PieceKind.I)]
  lines := 9 }

/-- A concrete state with the hold already used this spawn. -/
def c5state : GameState := { init0 (fun _ _ => 0) 0 with hold_used := true }

/-- A concrete state whose grounded piece's lock delay has expired, so the
next tick locks it. -/
def c5lockstate : GameState := { init0 (fun _ _ => 0) 0 with
  active := { mkPiece .I with y := 18 }
  grounded := true
  lock_start := some 1 }

/-- A concrete state whose lock-reset counter is exhausted. -/
def c6zero : GameState := { init0 (fun _ _ => 0) 0 with lock_resets_left := 0 }

/-- The concrete initial state used by several witnesses. -/
def w7state : GameState := initState (fun _ _ => 0) 0

/-- A concrete state that is already game over. -/
def c10over : GameState := { init0 (fun _ _ => 0) 0 with game_over := true }

/- ------------------------------------------------------------------ -/
/- Theorems.                                                           -/
/- ------------------------------------------------------------------ -/

theorem mkPiece_xok (k : PieceKind) : pieceXOK (mkPiece k) := by
  revert k; simp only [pieceXOK]; decide

theorem getD_cons_eraseIdx_perm (d : PieceKind) :
    ∀ (l : List PieceKind) (j : Nat), j < l.length →
      (l.getD j d :: l.eraseIdx j).Perm l := by
  intro l
  induction l with
  | nil => intro j h; simp at h
  | cons a t ih =>
      intro j h
      cases j with
      | zero => simp
      | succ j =>
          have h' : j < t.length := by simpa using h
          have h1 : (t.getD j d :: a :: t.eraseIdx j).Perm (a :: (t.getD j d :: t.eraseIdx j)) :=
            List.Perm.swap a (t.getD j d) (t.eraseIdx j)
          simpa using h1.trans (List.Perm.cons a (ih j h'))

theorem shuffleGo_perm (g : Nat → Nat) :
    ∀ fuel (l : List PieceKind), l.length ≤ fuel → (shuffleGo g fuel l).Perm l := by
  intro fuel
  induction fuel with
  | zero =>
      intro l h
      have : l = [] := List.length_eq_zero.mp (Nat.le_zero.mp h)
      subst this; simp [shuffleGo]
  | succ n ih =>
      intro l h
      match l with
      | [] => simp [shuffleGo]
      | k :: rest =>
          have hj : g (k :: rest).length % (k :: rest).length < (k :: rest).length :=
            Nat.mod_lt _ (by simp)
          have hlen : ((k :: rest).eraseIdx (g (k :: rest).length % (k :: rest).length)).length ≤ n := by
            rw [List.length_eraseIdx_of_lt hj]
            simpa using h
          exact (List.Perm.cons _ (ih _ hlen)).trans
            (getD_cons_eraseIdx_perm PieceKind.I (k :: rest) _ hj)

theorem new_bag_perm (g : Nat → Nat) : (new_bag g).Perm PIECE_KEYS :=
  shuffleGo_perm g PIECE_KEYS.length PIECE_KEYS (Nat.le_refl _)

theorem new_bag_length (g : Nat → Nat) : (new_bag g).length = 7 := by
  rw [(new_bag_perm g).length_eq]; rfl

theorem new_bag_ne_nil (g : Nat → Nat) : new_bag g ≠ [] := by
  intro h
  have := new_bag_length g
  rw [h] at this
  simp at this

theorem new_bag_count (g : Nat → Nat) (k : PieceKind) : (new_bag g).count k = 1 := by
  rw [(new_bag_perm g).count_eq]
  revert k; decide

theorem fill_next_spec (s : GameState) :
    ∃ b q r, fill_next s = { s with bag := b, next_queue := q, refills := r } := by
  unfold fill_next
  dsimp only
  repeat' split
  all_goals exact ⟨_, _, _, rfl⟩

theorem spawn_spec (s : GameState) :
    ∃ k b q r, spawn_from_queue s =
      (mkPiece k, { s with bag := b, next_queue := q, refills := r }) := by
  unfold spawn_from_queue fill_next
  dsimp only
  repeat' split
  all_goals exact ⟨_, _, _, _, rfl⟩

theorem collision_false_x {b : Board} {p : Piece} {xo yo : Int}
    (h : collision b p xo yo = false) :
    ∀ cr ∈ shape_cells p.shape, 0 ≤ p.x + ↑cr.1 + xo ∧ p.x + ↑cr.1 + xo < (COLS : Int) := by
  intro cr hcr
  rw [collision, Piece.get_cells] at h
  simp only [List.any_eq_false] at h
  have h2 := h _ (List.mem_map_of_mem _ hcr)
  simp only [Bool.or_eq_true, decide_eq_true_eq, Bool.and_eq_true, not_or] at h2
  simp only [COLS] at h2 ⊢
  omega

theorem pieceXOK_translate {b : Board} {p : Piece} {xo yo : Int}
    (h : collision b p xo yo = false) (y' : Int) :
    pieceXOK { p with x := p.x + xo, y := y' } := by
  have h1 := collision_false_x h
  intro cr hcr
  dsimp only
  have h2 := h1 cr hcr
  constructor <;> omega

theorem pieceXOK_update_y {p : Piece} (y' : Int) (h : pieceXOK p) :
    pieceXOK { p with y := y' } := h

theorem pieceXOK_of_fields (p : Piece) {q : Piece} (hk : q.kind = p.kind)
    (hr : q.rotIndex = p.rotIndex) (hx : q.x = p.x) (h : pieceXOK p) : pieceXOK q := by
  intro cr hcr
  have hs : q.shape = p.shape := by
    unfold Piece.shape Piece.shape_list
    rw [hk, hr]
  rw [hs] at hcr
  have h2 := h cr hcr
  rw [hx]
  exact h2

theorem boardWF_setCell {b : Board} (h : boardWF b) (y x : Nat) (v : Option PieceKind) :
    boardWF (setCell b y x v) := by
  obtain ⟨hl, hr⟩ := h
  by_cases hy : y < b.length
  · refine ⟨by simpa [setCell] using hl, ?_⟩
    intro row hrow
    rcases List.mem_or_eq_of_mem_set hrow with h1 | h1
    · exact hr _ h1
    · subst h1
      rw [List.length_set]
      have : b.getD y [] ∈ b := by
        rw [List.getD_eq_getElem?_getD, List.getElem?_eq_getElem hy]
        exact List.getElem_mem hy
      exact hr _ this
  · rw [setCell, List.set_eq_of_length_le (Nat.le_of_not_lt hy)]
    exact ⟨hl, hr⟩

theorem boardWF_fold_writes {b : Board} (h : boardWF b) (k : PieceKind) :
    ∀ ws : List (Int × Int),
      boardWF (ws.foldl (fun acc c => setCell acc c.2.toNat c.1.toNat (some k)) b) := by
  intro ws
  induction ws generalizing b with
  | nil => exact h
  | cons w ws ih => exact ih (boardWF_setCell h _ _ _)

theorem clear_boardWF {s : GameState} (h : boardWF s.board) :
    boardWF (clear_lines_and_score s).board := by
  obtain ⟨hl, hr⟩ := h
  unfold clear_lines_and_score
  dsimp only
  split
  · constructor
    · have hfl := List.length_filter_le (fun row => row.any fun c => c.isNone) s.board
      simp only [List.length_append, List.length_replicate]
      omega
    · intro row hrow
      rcases List.mem_append.mp hrow with h1 | h1
      · rw [List.eq_of_mem_replicate h1]
        simp
      · exact hr _ (List.mem_of_mem_filter h1)
  · exact ⟨hl, hr⟩

theorem clear_inv {s : GameState} (h : Inv s) : Inv (clear_lines_and_score s) := by
  obtain ⟨hb, hp, hlvl, hfm, hlr⟩ := h
  refine ⟨clear_boardWF hb, ?_, ?_, ?_, ?_⟩ <;>
    · unfold clear_lines_and_score
      dsimp only
      split
      · first
        | exact hp
        | rfl
        | exact hlr
      · first
        | exact hp
        | exact hlvl
        | exact hfm
        | exact hlr

theorem fill_next_inv {t : GameState} (h : Inv t) : Inv (fill_next t) := by
  obtain ⟨b, q, r, hf⟩ := fill_next_spec t
  obtain ⟨h1, h2, h3, h4, h5⟩ := h
  rw [hf]
  exact ⟨h1, h2, h3, h4, h5⟩

theorem spawn_active_inv {t : GameState} (h : Inv t) :
    Inv { (spawn_from_queue t).2 with active := (spawn_from_queue t).1 } := by
  obtain ⟨k, b, q, r, hsp⟩ := spawn_spec t
  obtain ⟨h1, h2, h3, h4, h5⟩ := h
  rw [hsp]
  exact ⟨h1, mkPiece_xok k, h3, h4, h5⟩

theorem locked_boardWF {s : GameState} (h : boardWF s.board) : boardWF (locked_board s) :=
  boardWF_fold_writes h s.active.kind (lock_writes s.active)

theorem lock_inv {s : GameState} (h : Inv s) : Inv (lock_piece s) := by
  obtain ⟨hb, hp, hlvl, hfm, hlr⟩ := h
  unfold lock_piece
  dsimp only
  have h1 : Inv (clear_lines_and_score { s with board := locked_board s }) :=
    clear_inv ⟨locked_boardWF hb, hp, hlvl, hfm, hlr⟩
  obtain ⟨hc1, hc2, hc3, hc4, hc5⟩ := h1
  obtain ⟨k, b2, q2, r2, hsp⟩ :=
    spawn_spec (clear_lines_and_score { s with board := locked_board s })
  rw [hsp]
  dsimp only
  split <;> exact ⟨hc1, mkPiece_xok k, hc3, hc4, le_refl _⟩

theorem hold_inv {s : GameState} (h : Inv s) : Inv (hold_action s) := by
  obtain ⟨hb, hp, hlvl, hfm, hlr⟩ := h
  unfold hold_action
  dsimp only
  split
  · exact ⟨hb, hp, hlvl, hfm, hlr⟩
  · rcases hh : s.hold with _ | temp
    · dsimp only
      obtain ⟨k, b2, q2, r2, hsp⟩ := spawn_spec { s with hold := none, hold_used := true }
      rw [hsp]
      dsimp only
      split <;> exact ⟨hb, mkPiece_xok k, hlvl, hfm, le_refl _⟩
    · dsimp only
      split <;> exact ⟨hb, mkPiece_xok temp, hlvl, hfm, le_refl _⟩

theorem rotate_inv {s : GameState} (h : Inv s) (cw : Bool) (now : Nat) :
    Inv (try_rotate_with_kick s cw now).2 := by
  obtain ⟨hb, hp, hlvl, hfm, hlr⟩ := h
  unfold try_rotate_with_kick
  dsimp only
  split
  · next k hk =>
    have hcol : collision s.board (s.active.rotate cw) k.1 k.2 = false := by
      have := List.find?_some hk
      simpa using this
    dsimp only
    split
    · unfold reset_lock_timer
      dsimp only
      split <;> exact ⟨hb, pieceXOK_translate hcol _, hlvl, hfm, by dsimp only; omega⟩
    · exact ⟨hb, pieceXOK_translate hcol _, hlvl, hfm, hlr⟩
  · exact ⟨hb, hp, hlvl, hfm, hlr⟩

theorem move_left_inv {s : GameState} (h : Inv s) (now : Nat) : Inv (move_left s now) := by
  obtain ⟨hb, hp, hlvl, hfm, hlr⟩ := h
  unfold move_left
  dsimp only
  split
  · next hc =>
    have hcol : collision s.board s.active (-1) 0 = false := by simpa using hc
    unfold reset_lock_timer
    dsimp only
    repeat' split
    all_goals exact ⟨hb, pieceXOK_translate hcol s.active.y, hlvl, hfm, by dsimp only; omega⟩
  · exact ⟨hb, hp, hlvl, hfm, hlr⟩

theorem move_right_inv {s : GameState} (h : Inv s) (now : Nat) : Inv (move_right s now) := by
  obtain ⟨hb, hp, hlvl, hfm, hlr⟩ := h
  unfold move_right
  dsimp only
  split
  · next hc =>
    have hcol : collision s.board s.active 1 0 = false := by simpa using hc
    unfold reset_lock_timer
    dsimp only
    repeat' split
    all_goals exact ⟨hb, pieceXOK_translate hcol s.active.y, hlvl, hfm, by dsimp only; omega⟩
  · exact ⟨hb, hp, hlvl, hfm, hlr⟩

theorem soft_drop_inv {s : GameState} (h : Inv s) : Inv (soft_drop s) := by
  obtain ⟨hb, hp, hlvl, hfm, hlr⟩ := h
  unfold soft_drop
  dsimp only
  split
  · exact ⟨hb, pieceXOK_update_y _ hp, hlvl, hfm, hlr⟩
  · exact ⟨hb, hp, hlvl, hfm, hlr⟩

theorem drop_loop_fields (b : Board) :
    ∀ fuel (p : Piece) acc, (drop_loop b fuel p acc).1.kind = p.kind ∧
      (drop_loop b fuel p acc).1.rotIndex = p.rotIndex ∧
      (drop_loop b fuel p acc).1.x = p.x := by
  intro fuel
  induction fuel with
  | zero => intro p acc; exact ⟨rfl, rfl, rfl⟩
  | succ n ih =>
      intro p acc
      unfold drop_loop
      split
      · exact ⟨rfl, rfl, rfl⟩
      · exact ih _ _

theorem hard_drop_inv {s : GameState} (h : Inv s) : Inv (hard_drop s) := by
  obtain ⟨hb, hp, hlvl, hfm, hlr⟩ := h
  unfold hard_drop
  dsimp only
  apply lock_inv
  obtain ⟨hk, hr, hx⟩ := drop_loop_fields s.board (ROWS + s.active.y.natAbs + 1) s.active 0
  exact ⟨hb, pieceXOK_of_fields s.active hk hr hx hp, hlvl, hfm, hlr⟩

theorem inv_last_fall {t : GameState} (now : Nat) (h : Inv t) :
    Inv { t with last_fall := now } := by
  obtain ⟨a1, a2, a3, a4, a5⟩ := h
  exact ⟨a1, a2, a3, a4, a5⟩

theorem tick_inv {s : GameState} (h : Inv s) (now : Nat) (down : Bool) :
    Inv (tick s now down) := by
  obtain ⟨hb, hp, hlvl, hfm, hlr⟩ := h
  unfold tick
  dsimp only
  split
  · exact ⟨hb, hp, hlvl, hfm, hlr⟩
  · by_cases hi : ((if down then SOFT_DROP_MS else s.fall_ms : Nat) : Int) ≤
        (now : Int) - (s.last_fall : Int)
    · rw [if_pos hi]
      by_cases hc : (!collision s.board s.active 0 1) = true
      · rw [if_pos hc]
        exact ⟨hb, pieceXOK_update_y _ hp, hlvl, hfm, hlr⟩
      · rw [if_neg hc]
        have hsg : Inv (if !s.grounded then
            { s with grounded := true, lock_start := some now } else s) := by
          split <;> exact ⟨hb, hp, hlvl, hfm, hlr⟩
        by_cases he : lockStartExpired (if !s.grounded then
            { s with grounded := true, lock_start := some now } else s).lock_start now = true
        · rw [if_pos he]
          exact inv_last_fall now (lock_inv hsg)
        · rw [if_neg he]
          exact inv_last_fall now hsg
    · rw [if_neg hi]
      exact ⟨hb, hp, hlvl, hfm, hlr⟩

theorem init_inv (seeds : Nat → Nat → Nat) (now : Nat) : Inv (initState seeds now) := by
  have h0 : Inv (init0 seeds now) := by
    refine ⟨⟨by simp [init0, ROWS], ?_⟩, mkPiece_xok .I, ?_, ?_, ?_⟩
    · intro row hrow
      rw [List.eq_of_mem_replicate hrow]
      simp
    · show (0 : Nat) = 0 / 10
      rfl
    · show BASE_FALL_MS = fallMsOf 0
      decide
    · show (15 : Nat) ≤ 15
      exact le_refl _
  unfold initState
  dsimp only
  exact spawn_active_inv (fill_next_inv (fill_next_inv (fill_next_inv
    (fill_next_inv (fill_next_inv h0)))))

theorem step_inv {s t : GameState} (h : Inv s) (hst : Step s t) : Inv t := by
  cases hst with
  | hold => exact hold_inv h
  | rotCW now => exact rotate_inv h true now
  | rotCCW now => exact rotate_inv h false now
  | hardDrop => exact hard_drop_inv h
  | softDrop => exact soft_drop_inv h
  | moveL now => exact move_left_inv h now
  | moveR now => exact move_right_inv h now
  | pause =>
      obtain ⟨h1, h2, h3, h4, h5⟩ := h
      exact ⟨h1, h2, h3, h4, h5⟩
  | tickStep now down => exact tick_inv h now down

theorem reachable_inv {s : GameState} (h : Reachable s) : Inv s := by
  induction h with
  | init seeds now => exact init_inv seeds now
  | step _ hst ih => exact step_inv ih hst

theorem getD_mem_of_lt {b : Board} {n : Nat} (h : n < b.length) : b.getD n [] ∈ b := by
  rw [List.getD_eq_getElem?_getD, List.getElem?_eq_getElem h]
  exact List.getElem_mem h

theorem collisionCheckedList_eq {b : Board} (hb : boardWF b) :
    ∀ cs : List (Int × Int),
      collisionCheckedList b cs = some (cs.any fun c =>
        decide (c.1 < 0) || decide ((COLS : Int) ≤ c.1) || decide ((ROWS : Int) ≤ c.2) ||
          (decide (0 ≤ c.2) && ((b.getD c.2.toNat []).getD c.1.toNat none).isSome)) := by
  obtain ⟨hl, hr⟩ := hb
  intro cs
  induction cs with
  | nil => rfl
  | cons c rest ih =>
      unfold collisionCheckedList
      by_cases h1 : c.1 < 0 ∨ (COLS : Int) ≤ c.1
      · rw [if_pos h1]
        rcases h1 with h1 | h1 <;> simp [h1]
      · rw [if_neg h1]
        push_neg at h1
        by_cases h2 : (ROWS : Int) ≤ c.2
        · rw [if_pos h2]
          simp [h2]
        · rw [if_neg h2]
          by_cases h3 : 0 ≤ c.2
          · rw [if_pos h3]
            have hyb : c.2.toNat < b.length := by
              rw [hl]
              simp only [ROWS] at h2 ⊢
              omega
            have hread : readCell b c.2 c.1 =
                some ((b.getD c.2.toNat []).getD c.1.toNat none) := by
              unfold readCell
              rw [if_pos]
              refine ⟨h3, hyb, by omega, ?_⟩
              rw [hr _ (getD_mem_of_lt hyb)]
              simp only [COLS] at h1 ⊢
              omega
            rw [hread]
            dsimp only
            have hnc1 : ¬ (c.1 < 0) := not_lt.mpr h1.1
            have hnc2 : ¬ ((COLS : Int) ≤ c.1) := not_le.mpr h1.2
            by_cases h4 : ((b.getD c.2.toNat []).getD c.1.toNat none).isSome = true
            · rw [if_pos h4]
              simp only [List.getD_eq_getElem?_getD] at h4
              simp [h3, h4]
            · simp only [Bool.not_eq_true] at h4
              have h4e : (b.getD c.2.toNat []).getD c.1.toNat none = none :=
                Option.isNone_iff_eq_none.mp (Option.not_isSome.mp h4)
              simp only [List.getD_eq_getElem?_getD] at h4e
              rw [if_neg (by simp [h4e])]
              simp [hnc1, hnc2, h2, h3, h4e, ih]
          · rw [if_neg h3]
            rw [ih]
            have hnc1 : ¬ (c.1 < 0) := not_lt.mpr h1.1
            have hnc2 : ¬ ((COLS : Int) ≤ c.1) := not_le.mpr h1.2
            simp [hnc1, hnc2, h2, h3]

/-- C1: no operation references a board cell outside the grid — `collision`
reads `board[y][x]` only behind full bounds checks (the checked-read variant
never fails on a well-formed board), and `lock_piece` writes only cells with
in-range row and column in every reachable state. -/
theorem C1_no_out_of_bounds {s : GameState} (h : Reachable s) :
    (∀ (p : Piece) (xo yo : Int),
        collisionChecked s.board p xo yo = some (collision s.board p xo yo)) ∧
    ∀ c ∈ lock_writes s.active,
        0 ≤ c.1 ∧ c.1 < (COLS : Int) ∧ 0 ≤ c.2 ∧ c.2 < (ROWS : Int) := by
  obtain ⟨hb, hp, _, _, _⟩ := reachable_inv h
  refine ⟨fun p xo yo => collisionCheckedList_eq hb _, ?_⟩
  intro c hc
  obtain ⟨hmem, hpred⟩ := List.mem_filter.mp hc
  rw [Piece.get_cells] at hmem
  obtain ⟨cr, hcr, rfl⟩ := List.mem_map.mp hmem
  have hx := hp cr hcr
  simp only [Bool.and_eq_true, decide_eq_true_eq] at hpred
  dsimp only
  exact ⟨by omega, by omega, hpred.1, hpred.2⟩

theorem fill_next_cons {s : GameState} {k : PieceKind} {rest : List PieceKind}
    (h : s.bag = k :: rest) :
    fill_next s = { s with bag := rest, next_queue := s.next_queue ++ [k] } := by
  unfold fill_next
  rw [h]
  rfl

theorem fill_next_nil {s : GameState} (h : s.bag = []) :
    ∃ k rest, new_bag (s.seeds s.refills) = k :: rest ∧
      fill_next s = { s with
        bag := rest
        next_queue := s.next_queue ++ [k]
        refills := s.refills + 1 } := by
  rcases hnb : new_bag (s.seeds s.refills) with _ | ⟨k, rest⟩
  · exact absurd hnb (new_bag_ne_nil _)
  · refine ⟨k, rest, rfl, ?_⟩
    unfold fill_next
    rw [h, hnb]
    rfl

theorem fill_consume : ∀ (b : List PieceKind) (s : GameState), s.bag = b →
    fill_next^[b.length] s = { s with bag := [], next_queue := s.next_queue ++ b } := by
  intro b
  induction b with
  | nil =>
      intro s h
      simp only [List.length_nil, Function.iterate_zero, id]
      rw [List.append_nil, ← h]
  | cons k rest ih =>
      intro s h
      rw [List.length_cons, Function.iterate_succ_apply, fill_next_cons h, ih _ rfl]
      rw [List.append_assoc]
      rfl

/-- C2: every bag produced by `new_bag` contains each of the seven kinds
exactly once; `fill_next` consumes the bag front-first, refilling it exactly
when it is empty; hence from an empty bag seven fills append one whole fresh
bag — a block of seven kinds containing every kind exactly once — to the
next-piece queue. -/
theorem C2_seven_bag (g : Nat → Nat) (s : GameState) (k : PieceKind) :
    (new_bag g).count k = 1 ∧
    (∀ k0 rest, s.bag = k0 :: rest →
        fill_next s = { s with bag := rest, next_queue := s.next_queue ++ [k0] }) ∧
    (s.bag = [] → ∃ k1 rest1, new_bag (s.seeds s.refills) = k1 :: rest1 ∧
        fill_next s = { s with
          bag := rest1
          next_queue := s.next_queue ++ [k1]
          refills := s.refills + 1 }) ∧
    (s.bag = [] →
        (fill_next^[7] s).next_queue = s.next_queue ++ new_bag (s.seeds s.refills) ∧
        (fill_next^[7] s).bag = []) := by
  refine ⟨new_bag_count g k, fun k0 rest h => fill_next_cons h, fun h => fill_next_nil h,
    fun h => ?_⟩
  obtain ⟨k1, rest1, hnb, hf⟩ := fill_next_nil h
  have hlen : rest1.length = 6 := by
    have h7 := new_bag_length (s.seeds s.refills)
    rw [hnb] at h7
    simpa using h7
  have h7 : (7 : Nat) = rest1.length + 1 := by omega
  rw [h7, Function.iterate_succ_apply, hf, fill_consume rest1 _ rfl]
  refine ⟨?_, rfl⟩
  dsimp only
  rw [List.append_assoc, hnb]
  rfl

/-- Witness for C2 at a concrete empty-bag state. -/
theorem C2_witness :
    (new_bag (fun _ => 0)).count PieceKind.I = 1 ∧
    (fill_next^[7] c2state).next_queue =
      c2state.next_queue ++ new_bag (c2state.seeds c2state.refills) ∧
    (fill_next^[7] c2state).bag = [] := by
  have h := C2_seven_bag (fun _ => 0) c2state PieceKind.I
  exact ⟨h.1, (h.2.2.2 rfl).1, (h.2.2.2 rfl).2⟩

theorem get_cells_translate (p : Piece) (xo yo : Int) :
    Piece.get_cells { p with x := p.x + xo, y := p.y + yo } 0 0 = p.get_cells xo yo := by
  unfold Piece.get_cells
  dsimp only
  apply List.map_congr_left
  intro cr _
  rw [Prod.mk.injEq]
  constructor <;> ring

theorem collision_translate (b : Board) (p : Piece) (xo yo : Int) :
    collision b { p with x := p.x + xo, y := p.y + yo } 0 0 = collision b p xo yo := by
  unfold collision
  rw [get_cells_translate]

theorem reset_lock_timer_board (s : GameState) (now : Nat) :
    (reset_lock_timer s now).board = s.board := by
  unfold reset_lock_timer
  split <;> rfl

theorem reset_lock_timer_active (s : GameState) (now : Nat) :
    (reset_lock_timer s now).active = s.active := by
  unfold reset_lock_timer
  split <;> rfl

/-- C3: `try_rotate_with_kick` either succeeds — the active piece is in the
new rotation state translated by the first offset of the kick sequence at
which the rotated piece does not collide, and the resulting placement is
collision-free — or every offset collides, it returns `false`, and the state
is exactly as before the call. -/
theorem C3_wall_kick (s : GameState) (cw : Bool) (now : Nat) :
    ((try_rotate_with_kick s cw now).1 = true →
      ∃ k pre post, kicks = pre ++ k :: post ∧
        (∀ k2 ∈ pre, collision s.board (s.active.rotate cw) k2.1 k2.2 = true) ∧
        collision s.board (s.active.rotate cw) k.1 k.2 = false ∧
        (try_rotate_with_kick s cw now).2.active =
          { s.active.rotate cw with
              x := (s.active.rotate cw).x + k.1
              y := (s.active.rotate cw).y + k.2 } ∧
        (try_rotate_with_kick s cw now).2.board = s.board ∧
        collision (try_rotate_with_kick s cw now).2.board
          (try_rotate_with_kick s cw now).2.active 0 0 = false) ∧
    ((try_rotate_with_kick s cw now).1 = false →
      (∀ k2 ∈ kicks, collision s.board (s.active.rotate cw) k2.1 k2.2 = true) ∧
      (try_rotate_with_kick s cw now).2 = s) := by
  unfold try_rotate_with_kick
  dsimp only
  rcases hfind : kicks.find? (fun k2 => !collision s.board (s.active.rotate cw) k2.1 k2.2)
    with _ | k
  · rw [hfind]
    dsimp only
    refine ⟨fun htrue => by simp at htrue, fun _ => ⟨?_, rfl⟩⟩
    intro k2 hk2
    have := List.find?_eq_none.mp hfind k2 hk2
    simpa using this
  · rw [hfind]
    dsimp only
    obtain ⟨hpk, pre, post, heq, hpre⟩ := List.find?_eq_some.mp hfind
    refine ⟨fun _ => ?_, fun hfalse => by simp at hfalse⟩
    refine ⟨k, pre, post, heq, ?_, by simpa using hpk, ?_, ?_, ?_⟩
    · intro k2 hk2
      have := hpre k2 hk2
      simpa using this
    · split
      · rw [reset_lock_timer_active]
      · rfl
    · split
      · rw [reset_lock_timer_board]
      · rfl
    · have hb2 : (if s.grounded = true then
          reset_lock_timer { s with active := { s.active.rotate cw with
            x := (s.active.rotate cw).x + k.1, y := (s.active.rotate cw).y + k.2 } } now
          else { s with active := { s.active.rotate cw with
            x := (s.active.rotate cw).x + k.1, y := (s.active.rotate cw).y + k.2 } }).board
          = s.board := by
        split
        · rw [reset_lock_timer_board]
        · rfl
      have ha2 : (if s.grounded = true then
          reset_lock_timer { s with active := { s.active.rotate cw with
            x := (s.active.rotate cw).x + k.1, y := (s.active.rotate cw).y + k.2 } } now
          else { s with active := { s.active.rotate cw with
            x := (s.active.rotate cw).x + k.1, y := (s.active.rotate cw).y + k.2 } }).active
          = { s.active.rotate cw with
            x := (s.active.rotate cw).x + k.1, y := (s.active.rotate cw).y + k.2 } := by
        split
        · rw [reset_lock_timer_active]
        · rfl
      rw [hb2, ha2, collision_translate]
      simpa using hpk

/-- Witness for C3 at a concrete state: rotating the freshly spawned piece
clockwise on the empty starting board succeeds. -/
theorem C3_witness :
    ((try_rotate_with_kick (init0 (fun _ _ => 0) 0) true 0).1 = true) ∧
    ∃ k pre post, kicks = pre ++ k :: post ∧
      (∀ k2 ∈ pre, collision (init0 (fun _ _ => 0) 0).board
          ((init0 (fun _ _ => 0) 0).active.rotate true) k2.1 k2.2 = true) ∧
      collision (init0 (fun _ _ => 0) 0).board
        ((init0 (fun _ _ => 0) 0).active.rotate true) k.1 k.2 = false ∧
      (try_rotate_with_kick (init0 (fun _ _ => 0) 0) true 0).2.active =
        { (init0 (fun _ _ => 0) 0).active.rotate true with
            x := ((init0 (fun _ _ => 0) 0).active.rotate true).x + k.1
            y := ((init0 (fun _ _ => 0) 0).active.rotate true).y + k.2 } ∧
      (try_rotate_with_kick (init0 (fun _ _ => 0) 0) true 0).2.board =
        (init0 (fun _ _ => 0) 0).board ∧
      collision (try_rotate_with_kick (init0 (fun _ _ => 0) 0) true 0).2.board
        (try_rotate_with_kick (init0 (fun _ _ => 0) 0) true 0).2.active 0 0 = false := by
  have ht : (try_rotate_with_kick (init0 (fun _ _ => 0) 0) true 0).1 = true := by decide
  exact ⟨ht, (C3_wall_kick (init0 (fun _ _ => 0) 0) true 0).1 ht⟩

theorem lock_piece_hold_used (s : GameState) : (lock_piece s).hold_used = false := by
  unfold lock_piece
  dsimp only
  obtain ⟨k, b2, q2, r2, hsp⟩ :=
    spawn_spec (clear_lines_and_score { s with board := locked_board s })
  rw [hsp]
  dsimp only
  split <;> rfl

theorem reset_lock_timer_hold_used (s : GameState) (now : Nat) :
    (reset_lock_timer s now).hold_used = s.hold_used := by
  unfold reset_lock_timer
  split <;> rfl

theorem hold_used_last_fall (t : GameState) (now : Nat) :
    ({ t with last_fall := now }).hold_used = t.hold_used := rfl

/-- Case analysis of one `tick` call: either the lock-delay branch fires and
the piece is locked (from the possibly re-grounded state `sg`), or the board
and all game counters are untouched. -/
theorem tick_cases (s : GameState) (now : Nat) (down : Bool) :
    (tickLocks s now down = true ∧ ∃ sg : GameState,
        tick s now down = { lock_piece sg with last_fall := now } ∧
        sg.board = s.board ∧ sg.active = s.active ∧ sg.hold_used = s.hold_used ∧
        sg.hold = s.hold ∧ sg.score = s.score ∧ sg.lines = s.lines ∧
        sg.level = s.level ∧ sg.fall_ms = s.fall_ms ∧ sg.game_over = s.game_over ∧
        sg.lock_resets_left = s.lock_resets_left) ∨
    (tickLocks s now down = false ∧
        (tick s now down).board = s.board ∧ (tick s now down).hold_used = s.hold_used ∧
        (tick s now down).score = s.score ∧ (tick s now down).lines = s.lines ∧
        (tick s now down).level = s.level ∧ (tick s now down).fall_ms = s.fall_ms ∧
        (tick s now down).game_over = s.game_over) := by
  unfold tick tickLocks
  dsimp only
  by_cases hgo : (s.game_over || s.paused) = true
  · rw [if_pos hgo, if_pos hgo]
    right
    exact ⟨rfl, rfl, rfl, rfl, rfl, rfl, rfl, rfl⟩
  · rw [if_neg hgo, if_neg hgo]
    by_cases hi : ((if down then SOFT_DROP_MS else s.fall_ms : Nat) : Int) ≤
        (now : Int) - (s.last_fall : Int)
    · rw [if_pos hi, if_pos hi]
      by_cases hc : (!collision s.board s.active 0 1) = true
      · rw [if_pos hc, if_pos hc]
        right
        exact ⟨rfl, rfl, rfl, rfl, rfl, rfl, rfl, rfl⟩
      · rw [if_neg hc, if_neg hc]
        by_cases he : lockStartExpired ((if (!s.grounded) = true then
            { s with grounded := true, lock_start := some now } else s) :
              GameState).lock_start now = true
        · rw [if_pos he]
          left
          refine ⟨he, ?_⟩
          by_cases hg : (!s.grounded) = true
          · rw [if_pos hg]
            exact ⟨{ s with grounded := true, lock_start := some now }, rfl, rfl, rfl, rfl,
              rfl, rfl, rfl, rfl, rfl, rfl, rfl⟩
          · rw [if_neg hg]
            exact ⟨s, rfl, rfl, rfl, rfl, rfl, rfl, rfl, rfl, rfl, rfl, rfl⟩
        · rw [if_neg he]
          right
          refine ⟨Eq.mp (Bool.not_eq_true _) he, ?_⟩
          by_cases hg : (!s.grounded) = true
          · rw [if_pos hg]
            exact ⟨rfl, rfl, rfl, rfl, rfl, rfl, rfl⟩
          · rw [if_neg hg]
            exact ⟨rfl, rfl, rfl, rfl, rfl, rfl, rfl⟩
    · rw [if_neg hi, if_neg hi]
      right
      exact ⟨rfl, rfl, rfl, rfl, rfl, rfl, rfl, rfl⟩

/-- C4: the board is mutated only at lock and line-clear time — horizontal
moves, soft drop, rotation with kicks, hold, and any tick that does not lock
the piece leave every cell of the board unchanged. -/
theorem C4_board_only_lock (s : GameState) (now : Nat) (cw down : Bool) :
    (move_left s now).board = s.board ∧
    (move_right s now).board = s.board ∧
    (soft_drop s).board = s.board ∧
    (try_rotate_with_kick s cw now).2.board = s.board ∧
    (hold_action s).board = s.board ∧
    (tickLocks s now down = false → (tick s now down).board = s.board) := by
  refine ⟨?_, ?_, ?_, ?_, ?_, ?_⟩
  · unfold move_left
    dsimp only
    split
    · split
      · rw [reset_lock_timer_board]
      · rfl
    · rfl
  · unfold move_right
    dsimp only
    split
    · split
      · rw [reset_lock_timer_board]
      · rfl
    · rfl
  · unfold soft_drop
    dsimp only
    split <;> rfl
  · unfold try_rotate_with_kick
    dsimp only
    rcases hfind : kicks.find? (fun k2 => !collision s.board (s.active.rotate cw) k2.1 k2.2)
      with _ | k
    · rw [hfind]
    · rw [hfind]
      dsimp only
      split
      · rw [reset_lock_timer_board]
      · rfl
  · unfold hold_action
    dsimp only
    split
    · rfl
    · rcases hh : s.hold with _ | temp
      · dsimp only
        obtain ⟨k, b2, q2, r2, hsp⟩ := spawn_spec { s with hold := none, hold_used := true }
        rw [hsp]
        dsimp only
        split <;> rfl
      · dsimp only
        split <;> rfl
  · intro hnl
    rcases tick_cases s now down with ⟨ht, _⟩ | ⟨_, hb, _⟩
    · rw [ht] at hnl
      simp at hnl
    · exact hb

/-- Witness for C4 at the concrete initial state (where the tick does not
lock). -/
theorem C4_witness :
    (move_left (init0 (fun _ _ => 0) 0) 0).board = (init0 (fun _ _ => 0) 0).board ∧
    (move_right (init0 (fun _ _ => 0) 0) 0).board = (init0 (fun _ _ => 0) 0).board ∧
    (soft_drop (init0 (fun _ _ => 0) 0)).board = (init0 (fun _ _ => 0) 0).board ∧
    (try_rotate_with_kick (init0 (fun _ _ => 0) 0) true 0).2.board =
      (init0 (fun _ _ => 0) 0).board ∧
    (hold_action (init0 (fun _ _ => 0) 0)).board = (init0 (fun _ _ => 0) 0).board ∧
    (tick (init0 (fun _ _ => 0) 0) 0 false).board = (init0 (fun _ _ => 0) 0).board := by
  have h := C4_board_only_lock (init0 (fun _ _ => 0) 0) 0 true false
  exact ⟨h.1, h.2.1, h.2.2.1, h.2.2.2.1, h.2.2.2.2.1, h.2.2.2.2.2 (by decide)⟩

/-- C5: hold-swap is usable at most once per spawn — `hold_action` sets
`hold_used`, a second call returns with the state unchanged, and the flag is
cleared only by `lock_piece` (directly, via `hard_drop`, or via a locking
tick); every other operation preserves it. -/
theorem C5_hold_once (s : GameState) (now : Nat) (cw down : Bool) :
    (hold_action s).hold_used = true ∧
    (s.hold_used = true → hold_action s = s) ∧
    (lock_piece s).hold_used = false ∧
    (hard_drop s).hold_used = false ∧
    (move_left s now).hold_used = s.hold_used ∧
    (move_right s now).hold_used = s.hold_used ∧
    (soft_drop s).hold_used = s.hold_used ∧
    (try_rotate_with_kick s cw now).2.hold_used = s.hold_used ∧
    (tickLocks s now down = false → (tick s now down).hold_used = s.hold_used) ∧
    (tickLocks s now down = true → (tick s now down).hold_used = false) := by
  refine ⟨?_, ?_, lock_piece_hold_used s, ?_, ?_, ?_, ?_, ?_, ?_, ?_⟩
  · unfold hold_action
    dsimp only
    split
    · next hused => exact hused
    · rcases hh : s.hold with _ | temp
      · dsimp only
        obtain ⟨k, b2, q2, r2, hsp⟩ := spawn_spec { s with hold := none, hold_used := true }
        rw [hsp]
        dsimp only
        split <;> rfl
      · dsimp only
        split <;> rfl
  · intro hu
    unfold hold_action
    rw [if_pos hu]
  · unfold hard_drop
    dsimp only
    exact lock_piece_hold_used _
  · unfold move_left
    dsimp only
    split
    · split
      · rw [reset_lock_timer_hold_used]
      · rfl
    · rfl
  · unfold move_right
    dsimp only
    split
    · split
      · rw [reset_lock_timer_hold_used]
      · rfl
    · rfl
  · unfold soft_drop
    dsimp only
    split <;> rfl
  · unfold try_rotate_with_kick
    dsimp only
    rcases hfind : kicks.find? (fun k2 => !collision s.board (s.active.rotate cw) k2.1 k2.2)
      with _ | k
    · rw [hfind]
    · rw [hfind]
      dsimp only
      split
      · rw [reset_lock_timer_hold_used]
      · rfl
  · intro hnl
    rcases tick_cases s now down with ⟨ht, _⟩ | ⟨_, _, hu, _⟩
    · rw [ht] at hnl
      simp at hnl
    · exact hu
  · intro hl
    rcases tick_cases s now down with ⟨_, sg, hteq, _⟩ | ⟨ht, _⟩
    · rw [hteq, hold_used_last_fall]
      exact lock_piece_hold_used sg
    · rw [ht] at hl
      simp at hl

/-- Witness for C5 at concrete states: a hold-used state where a second hold
is a no-op, and a grounded lock-expired state where the tick locks. -/
theorem C5_witness :
    (hold_action c5state).hold_used = true ∧
    hold_action c5state = c5state ∧
    (lock_piece c5state).hold_used = false ∧
    (hard_drop c5state).hold_used = false ∧
    (move_left c5state 0).hold_used = c5state.hold_used ∧
    (move_right c5state 0).hold_used = c5state.hold_used ∧
    (soft_drop c5state).hold_used = c5state.hold_used ∧
    (try_rotate_with_kick c5state true 0).2.hold_used = c5state.hold_used ∧
    (tick c5state 0 false).hold_used = c5state.hold_used ∧
    (tick c5lockstate 900 false).hold_used = false := by
  have h := C5_hold_once c5state 0 true false
  have h2 := C5_hold_once c5lockstate 900 true false
  exact ⟨h.1, h.2.1 rfl, h.2.2.1, h.2.2.2.1, h.2.2.2.2.1, h.2.2.2.2.2.1, h.2.2.2.2.2.2.1,
    h.2.2.2.2.2.2.2.1, h.2.2.2.2.2.2.2.2.1 (by decide),
    h2.2.2.2.2.2.2.2.2.2 (by decide)⟩

/-- C6: the lock-delay reset counter always lies in `[0, 15]`;
`reset_lock_timer` restarts the timer and decrements the counter only while
it is positive, and is a no-op once it reaches zero, so a grounded piece's
lock timer can be reset at most 15 times. -/
theorem C6_lock_resets (s : GameState) (now : Nat) :
    (Reachable s → s.lock_resets_left ≤ 15) ∧
    (0 < s.lock_resets_left → reset_lock_timer s now =
      { s with lock_start := some now, lock_resets_left := s.lock_resets_left - 1 }) ∧
    (s.lock_resets_left = 0 → reset_lock_timer s now = s) := by
  refine ⟨fun h => (reachable_inv h).2.2.2.2, fun hpos => ?_, fun hzero => ?_⟩
  · unfold reset_lock_timer
    rw [if_pos hpos]
  · unfold reset_lock_timer
    rw [if_neg (by omega)]

/-- Witness for C6 at concrete states: the fresh state has 15 resets and a
reset decrements to 14; a zero-counter state is left unchanged. -/
theorem C6_witness :
    (initState (fun _ _ => 0) 0).lock_resets_left ≤ 15 ∧
    reset_lock_timer (initState (fun _ _ => 0) 0) 5 =
      { initState (fun _ _ => 0) 0 with
        lock_start := some 5
        lock_resets_left := (initState (fun _ _ => 0) 0).lock_resets_left - 1 } ∧
    reset_lock_timer c6zero 0 = c6zero := by
  have h := C6_lock_resets (initState (fun _ _ => 0) 0) 5
  have h2 := C6_lock_resets c6zero 0
  exact ⟨h.1 (Reachable.init _ _), h.2.1 (by decide), h2.2.2 (by decide)⟩

/-- C8: the equality `level = lines / 10` holds in the initial state and is
preserved by every operation, so it holds in every reachable state. -/
theorem C8_level_eq (s : GameState) (h : Reachable s) : s.level = s.lines / 10 :=
  (reachable_inv h).2.2.1

/-- Witness for C8 at the concrete initial state. -/
theorem C8_witness :
    (initState (fun _ _ => 0) 0).level = (initState (fun _ _ => 0) 0).lines / 10 :=
  C8_level_eq (initState (fun _ _ => 0) 0) (Reachable.init (fun _ _ => 0) 0)

theorem fall_step (n : Nat) :
    BASE_FALL_MS * 17 ^ (n + 1) / 20 ^ (n + 1) ≤ BASE_FALL_MS * 17 ^ n / 20 ^ n := by
  rw [pow_succ, pow_succ, ← Nat.mul_assoc]
  calc BASE_FALL_MS * 17 ^ n * 17 / (20 ^ n * 20)
      ≤ BASE_FALL_MS * 17 ^ n * 20 / (20 ^ n * 20) :=
        Nat.div_le_div_right (Nat.mul_le_mul_left _ (by norm_num))
    _ = BASE_FALL_MS * 17 ^ n / 20 ^ n := Nat.mul_div_mul_right _ _ (by norm_num)

theorem fallMs_pow_antitone (a d : Nat) :
    BASE_FALL_MS * 17 ^ (a + d) / 20 ^ (a + d) ≤ BASE_FALL_MS * 17 ^ a / 20 ^ a := by
  induction d with
  | zero => exact le_refl _
  | succ n ih =>
      rw [Nat.add_succ]
      exact le_trans (fall_step (a + n)) ih

/-- The fall interval derived from the level never increases as the level
rises. -/
theorem fallMsOf_antitone {a b : Nat} (hab : a ≤ b) : fallMsOf b ≤ fallMsOf a := by
  obtain ⟨d, rfl⟩ := Nat.exists_eq_add_of_le hab
  unfold fallMsOf
  exact max_le_max (le_refl 80) (fallMs_pow_antitone a d)

theorem clear_mono {s : GameState} (hlvl : s.level = s.lines / 10)
    (hfm : s.fall_ms = fallMsOf s.level) :
    s.score ≤ (clear_lines_and_score s).score ∧ s.lines ≤ (clear_lines_and_score s).lines ∧
    s.level ≤ (clear_lines_and_score s).level ∧
    (clear_lines_and_score s).fall_ms ≤ s.fall_ms := by
  unfold clear_lines_and_score
  dsimp only
  split
  · refine ⟨Nat.le_add_right _ _, Nat.le_add_right _ _, ?_, ?_⟩
    · rw [hlvl]
      exact Nat.div_le_div_right (Nat.le_add_right _ _)
    · rw [hfm, hlvl]
      exact fallMsOf_antitone (Nat.div_le_div_right (Nat.le_add_right _ _))
  · exact ⟨le_refl _, le_refl _, le_refl _, le_refl _⟩

theorem lock_mono {s : GameState} (hlvl : s.level = s.lines / 10)
    (hfm : s.fall_ms = fallMsOf s.level) :
    s.score ≤ (lock_piece s).score ∧ s.lines ≤ (lock_piece s).lines ∧
    s.level ≤ (lock_piece s).level ∧ (lock_piece s).fall_ms ≤ s.fall_ms := by
  unfold lock_piece
  dsimp only
  obtain ⟨k, b2, q2, r2, hsp⟩ :=
    spawn_spec (clear_lines_and_score { s with board := locked_board s })
  rw [hsp]
  dsimp only
  have h := clear_mono (s := { s with board := locked_board s }) hlvl hfm
  split <;> exact ⟨h.1, h.2.1, h.2.2.1, h.2.2.2⟩

theorem reset_lock_timer_counters (s : GameState) (now : Nat) :
    (reset_lock_timer s now).score = s.score ∧ (reset_lock_timer s now).lines = s.lines ∧
    (reset_lock_timer s now).level = s.level ∧ (reset_lock_timer s now).fall_ms = s.fall_ms := by
  unfold reset_lock_timer
  split <;> exact ⟨rfl, rfl, rfl, rfl⟩

theorem counters_last_fall (t : GameState) (now : Nat) :
    ({ t with last_fall := now }).score = t.score ∧
    ({ t with last_fall := now }).lines = t.lines ∧
    ({ t with last_fall := now }).level = t.level ∧
    ({ t with last_fall := now }).fall_ms = t.fall_ms := ⟨rfl, rfl, rfl, rfl⟩

/-- Counterexample to C7 as stated: on a state with nine cleared lines and a
full bottom row, `clear_lines_and_score` raises the level from 0 to 1 and
thereby lowers `fall_ms` from 800 to 680, so `fall_ms` does not satisfy
"greater than or equal to the old value". -/
theorem C7_counterexample :
    (clear_lines_and_score c7state).fall_ms < c7state.fall_ms := by decide

/-- C7 (amended): under every listed operation, `score`, `lines` and `level`
never decrease, and the fall interval `fall_ms` never increases (it is
derived from the level, which only rises). -/
theorem C7_monotone {s : GameState} (h : Reachable s) (now : Nat) (cw down : Bool) :
    (s.score ≤ (soft_drop s).score ∧ s.lines ≤ (soft_drop s).lines ∧
      s.level ≤ (soft_drop s).level ∧ (soft_drop s).fall_ms ≤ s.fall_ms) ∧
    (s.score ≤ (hard_drop s).score ∧ s.lines ≤ (hard_drop s).lines ∧
      s.level ≤ (hard_drop s).level ∧ (hard_drop s).fall_ms ≤ s.fall_ms) ∧
    (s.score ≤ (hold_action s).score ∧ s.lines ≤ (hold_action s).lines ∧
      s.level ≤ (hold_action s).level ∧ (hold_action s).fall_ms ≤ s.fall_ms) ∧
    (s.score ≤ (try_rotate_with_kick s cw now).2.score ∧
      s.lines ≤ (try_rotate_with_kick s cw now).2.lines ∧
      s.level ≤ (try_rotate_with_kick s cw now).2.level ∧
      (try_rotate_with_kick s cw now).2.fall_ms ≤ s.fall_ms) ∧
    (s.score ≤ (lock_piece s).score ∧ s.lines ≤ (lock_piece s).lines ∧
      s.level ≤ (lock_piece s).level ∧ (lock_piece s).fall_ms ≤ s.fall_ms) ∧
    (s.score ≤ (clear_lines_and_score s).score ∧
      s.lines ≤ (clear_lines_and_score s).lines ∧
      s.level ≤ (clear_lines_and_score s).level ∧
      (clear_lines_and_score s).fall_ms ≤ s.fall_ms) ∧
    (s.score ≤ (tick s now down).score ∧ s.lines ≤ (tick s now down).lines ∧
      s.level ≤ (tick s now down).level ∧ (tick s now down).fall_ms ≤ s.fall_ms) := by
  obtain ⟨hb, hp, hlvl, hfm, hlr⟩ := reachable_inv h
  refine ⟨?_, ?_, ?_, ?_, lock_mono hlvl hfm, clear_mono hlvl hfm, ?_⟩
  · unfold soft_drop
    dsimp only
    split
    · exact ⟨Nat.le_add_right _ _, le_refl _, le_refl _, le_refl _⟩
    · exact ⟨le_refl _, le_refl _, le_refl _, le_refl _⟩
  · unfold hard_drop
    dsimp only
    have hm := lock_mono (s := { s with
      active := (drop_loop s.board (ROWS + s.active.y.natAbs + 1) s.active 0).1
      score := s.score + HARD_DROP_SCORE *
        (drop_loop s.board (ROWS + s.active.y.natAbs + 1) s.active 0).2 }) hlvl hfm
    exact ⟨le_trans (Nat.le_add_right _ _) hm.1, hm.2.1, hm.2.2.1, hm.2.2.2⟩
  · unfold hold_action
    dsimp only
    split
    · exact ⟨le_refl _, le_refl _, le_refl _, le_refl _⟩
    · rcases hh : s.hold with _ | temp
      · dsimp only
        obtain ⟨k, b2, q2, r2, hsp⟩ := spawn_spec { s with hold := none, hold_used := true }
        rw [hsp]
        dsimp only
        split <;> exact ⟨le_refl _, le_refl _, le_refl _, le_refl _⟩
      · dsimp only
        split <;> exact ⟨le_refl _, le_refl _, le_refl _, le_refl _⟩
  · unfold try_rotate_with_kick
    dsimp only
    rcases hfind : kicks.find? (fun k2 => !collision s.board (s.active.rotate cw) k2.1 k2.2)
      with _ | k
    · rw [hfind]
      exact ⟨le_refl _, le_refl _, le_refl _, le_refl _⟩
    · rw [hfind]
      dsimp only
      split
      · obtain ⟨r1, r2, r3, r4⟩ := reset_lock_timer_counters { s with active :=
          { s.active.rotate cw with
              x := (s.active.rotate cw).x + k.1, y := (s.active.rotate cw).y + k.2 } } now
        rw [r1, r2, r3, r4]
        exact ⟨le_refl _, le_refl _, le_refl _, le_refl _⟩
      · exact ⟨le_refl _, le_refl _, le_refl _, le_refl _⟩
  · rcases tick_cases s now down with
      ⟨ht, sg, hteq, hsb, hsa, hsu, hsh, hss, hsl, hslv, hsf, hsg2, hslr⟩ | ⟨ht, hb2, hu2, hs2, hl2, hlv2, hf2, hg2⟩
    · rw [hteq]
      obtain ⟨c1, c2, c3, c4⟩ := counters_last_fall (lock_piece sg) now
      rw [c1, c2, c3, c4]
      have hm := lock_mono (s := sg) (by rw [hslv, hsl]; exact hlvl) (by rw [hsf, hslv]; exact hfm)
      rw [hss, hsl, hslv, hsf] at hm
      exact ⟨hm.1, hm.2.1, hm.2.2.1, hm.2.2.2⟩
    · rw [hs2, hl2, hlv2, hf2]
      exact ⟨le_refl _, le_refl _, le_refl _, le_refl _⟩

/-- Witness for C7 (amended) at the concrete initial state. -/
theorem C7_witness :
    (w7state.score ≤ (soft_drop w7state).score ∧ w7state.lines ≤ (soft_drop w7state).lines ∧
      w7state.level ≤ (soft_drop w7state).level ∧ (soft_drop w7state).fall_ms ≤ w7state.fall_ms) ∧
    (w7state.score ≤ (hard_drop w7state).score ∧ w7state.lines ≤ (hard_drop w7state).lines ∧
      w7state.level ≤ (hard_drop w7state).level ∧ (hard_drop w7state).fall_ms ≤ w7state.fall_ms) ∧
    (w7state.score ≤ (hold_action w7state).score ∧ w7state.lines ≤ (hold_action w7state).lines ∧
      w7state.level ≤ (hold_action w7state).level ∧
      (hold_action w7state).fall_ms ≤ w7state.fall_ms) ∧
    (w7state.score ≤ (try_rotate_with_kick w7state true 0).2.score ∧
      w7state.lines ≤ (try_rotate_with_kick w7state true 0).2.lines ∧
      w7state.level ≤ (try_rotate_with_kick w7state true 0).2.level ∧
      (try_rotate_with_kick w7state true 0).2.fall_ms ≤ w7state.fall_ms) ∧
    (w7state.score ≤ (lock_piece w7state).score ∧ w7state.lines ≤ (lock_piece w7state).lines ∧
      w7state.level ≤ (lock_piece w7state).level ∧
      (lock_piece w7state).fall_ms ≤ w7state.fall_ms) ∧
    (w7state.score ≤ (clear_lines_and_score w7state).score ∧
      w7state.lines ≤ (clear_lines_and_score w7state).lines ∧
      w7state.level ≤ (clear_lines_and_score w7state).level ∧
      (clear_lines_and_score w7state).fall_ms ≤ w7state.fall_ms) ∧
    (w7state.score ≤ (tick w7state 0 false).score ∧
      w7state.lines ≤ (tick w7state 0 false).lines ∧
      w7state.level ≤ (tick w7state 0 false).level ∧
      (tick w7state 0 false).fall_ms ≤ w7state.fall_ms) :=
  C7_monotone (Reachable.init (fun _ _ => 0) 0) 0 true false

theorem any_isNone_eq (row : List (Option PieceKind)) :
    (row.any fun c => c.isNone) = !(row.all fun c => c.isSome) := by
  induction row with
  | nil => rfl
  | cons c rest ih => cases c <;> simp [ih]

theorem filter_partition_len (b : Board) :
    (b.filter fun row => row.any fun c => c.isNone).length + fullRows b = b.length := by
  unfold fullRows
  induction b with
  | nil => rfl
  | cons r rest ih =>
      by_cases hall : (r.all fun c => c.isSome) = true
      · have hany : (r.any fun c => c.isNone) = false := by
          rw [any_isNone_eq, hall]
          rfl
        simp only [List.filter_cons, hany, hall, if_true, if_false, Bool.false_eq_true,
          ite_true, ite_false, List.length_cons]
        omega
      · have hall2 : (r.all fun c => c.isSome) = false := by
          rcases hb : (r.all fun c => c.isSome) with _ | _
          · rfl
          · exact absurd hb hall
        have hany : (r.any fun c => c.isNone) = true := by
          rw [any_isNone_eq, hall2]
          rfl
        simp only [List.filter_cons, hany, hall2, Bool.false_eq_true, ite_true, ite_false,
          List.length_cons]
        omega

/-- C9: `clear_lines_and_score` removes exactly the fully occupied rows,
prepends the same number of empty rows (keeping the remaining rows in order
and the board at `ROWS × COLS`), adds `SCORES[cleared] * (level + 1)` to the
score using the pre-update level and `cleared` to the line count when at
least one row clears, and is the identity when no row is full. -/
theorem C9_clear_spec (s : GameState) (h : boardWF s.board) :
    (clear_lines_and_score s).board =
      List.replicate (fullRows s.board) (List.replicate COLS (none : Option PieceKind)) ++
        s.board.filter (fun row => !(row.all fun c => c.isSome)) ∧
    (clear_lines_and_score s).board.length = ROWS ∧
    (∀ row ∈ (clear_lines_and_score s).board, row.length = COLS) ∧
    (0 < fullRows s.board →
      (clear_lines_and_score s).score = s.score + SCORES (fullRows s.board) * (s.level + 1) ∧
      (clear_lines_and_score s).lines = s.lines + fullRows s.board) ∧
    (fullRows s.board = 0 → clear_lines_and_score s = s) ∧
    SCORES 1 = 100 ∧ SCORES 2 = 300 ∧ SCORES 3 = 500 ∧ SCORES 4 = 800 := by
  obtain ⟨hl, hr⟩ := h
  have hpart := filter_partition_len s.board
  rw [hl] at hpart
  have hcongr : (s.board.filter fun row => row.any fun c => c.isNone) =
      s.board.filter (fun row => !(row.all fun c => c.isSome)) :=
    List.filter_congr (fun a _ => any_isNone_eq a)
  have hcount : ROWS - (s.board.filter fun row => row.any fun c => c.isNone).length =
      fullRows s.board := by omega
  have hbWF2 : boardWF (clear_lines_and_score s).board :=
    clear_boardWF ⟨hl, hr⟩
  refine ⟨?_, hbWF2.1, hbWF2.2, ?_, ?_, rfl, rfl, rfl, rfl⟩
  · unfold clear_lines_and_score
    dsimp only
    split
    · dsimp only
      rw [hcount, hcongr]
    · next hneg =>
      have hfull0 : fullRows s.board = 0 := by omega
      have hlenx : (s.board.filter fun row => row.any fun c => c.isNone).length =
          s.board.length := by omega
      have hself : (s.board.filter fun row => row.any fun c => c.isNone) = s.board :=
        List.filter_eq_self.mpr (List.filter_length_eq_length.mp hlenx)
      rw [hfull0, List.replicate_zero, List.nil_append, ← hcongr, hself]
  · intro hfull
    unfold clear_lines_and_score
    dsimp only
    rw [if_pos (by omega : 0 < ROWS -
      (s.board.filter fun row => row.any fun c => c.isNone).length)]
    dsimp only
    rw [hcount]
    exact ⟨rfl, rfl⟩
  · intro hfull0
    unfold clear_lines_and_score
    dsimp only
    rw [if_neg (by omega : ¬ 0 < ROWS -
      (s.board.filter fun row => row.any fun c => c.isNone).length)]

/-- Witness for C9 at the concrete full-bottom-row state (one full row). -/
theorem C9_witness :
    (clear_lines_and_score c7state).board =
      List.replicate (fullRows c7state.board) (List.replicate COLS (none : Option PieceKind)) ++
        c7state.board.filter (fun row => !(row.all fun c => c.isSome)) ∧
    (clear_lines_and_score c7state).board.length = ROWS ∧
    (∀ row ∈ (clear_lines_and_score c7state).board, row.length = COLS) ∧
    (clear_lines_and_score c7state).score =
      c7state.score + SCORES (fullRows c7state.board) * (c7state.level + 1) ∧
    (clear_lines_and_score c7state).lines = c7state.lines + fullRows c7state.board := by
  have h := C9_clear_spec c7state (by constructor <;> decide)
  exact ⟨h.1, h.2.1, h.2.2.1, (h.2.2.2.1 (by decide)).1, (h.2.2.2.1 (by decide)).2⟩

/-- C10: in a not-yet-over state, `lock_piece` flags game over exactly when
the piece it spawns collides with the post-lock board, `hold_action` (when
the hold is still available) flags game over exactly when the swapped-in,
repositioned piece collides, and once `game_over` is set, `tick` changes
nothing but `last_fall`. -/
theorem C10_game_over (s : GameState) (now : Nat) (down : Bool) :
    (s.game_over = false →
      ((lock_piece s).game_over = true ↔
        collision (lock_piece s).board (lock_piece s).active 0 0 = true)) ∧
    (s.game_over = false → s.hold_used = false →
      ((hold_action s).game_over = true ↔
        collision (hold_action s).board (hold_action s).active 0 0 = true)) ∧
    (s.game_over = true → tick s now down = { s with last_fall := now }) := by
  refine ⟨?_, ?_, ?_⟩
  · intro hgo
    unfold lock_piece
    dsimp only
    obtain ⟨k, b2, q2, r2, hsp⟩ :=
      spawn_spec (clear_lines_and_score { s with board := locked_board s })
    rw [hsp]
    dsimp only
    split
    · next hc => exact ⟨fun _ => hc, fun _ => rfl⟩
    · next hc =>
      refine ⟨fun hgo2 => ?_, fun hcol => absurd hcol hc⟩
      have hgo3 : (clear_lines_and_score { s with board := locked_board s }).game_over = true :=
        hgo2
      have hgo4 : (clear_lines_and_score { s with board := locked_board s }).game_over =
          s.game_over := by
        unfold clear_lines_and_score
        dsimp only
        split <;> rfl
      rw [hgo4, hgo] at hgo3
      exact absurd hgo3 (by simp)
  · intro hgo hu
    unfold hold_action
    rw [if_neg (by simp [hu])]
    dsimp only
    rcases hh : s.hold with _ | temp
    · dsimp only
      obtain ⟨k, b2, q2, r2, hsp⟩ := spawn_spec { s with hold := none, hold_used := true }
      rw [hsp]
      dsimp only
      split
      · next hc => exact ⟨fun _ => hc, fun _ => rfl⟩
      · next hc =>
        refine ⟨fun hgo2 => ?_, fun hcol => absurd hcol hc⟩
        have hgo3 : s.game_over = true := hgo2
        rw [hgo] at hgo3
        exact absurd hgo3 (by simp)
    · dsimp only
      split
      · next hc => exact ⟨fun _ => hc, fun _ => rfl⟩
      · next hc =>
        refine ⟨fun hgo2 => ?_, fun hcol => absurd hcol hc⟩
        have hgo3 : s.game_over = true := hgo2
        rw [hgo] at hgo3
        exact absurd hgo3 (by simp)
  · intro hgo
    unfold tick
    rw [if_pos (by simp [hgo])]

/-- Witness for C10 at concrete states: a fresh (not-over) state for the
lock and hold clauses, a game-over state for the tick clause. -/
theorem C10_witness :
    ((lock_piece (init0 (fun _ _ => 0) 0)).game_over = true ↔
      collision (lock_piece (init0 (fun _ _ => 0) 0)).board
        (lock_piece (init0 (fun _ _ => 0) 0)).active 0 0 = true) ∧
    ((hold_action (init0 (fun _ _ => 0) 0)).game_over = true ↔
      collision (hold_action (init0 (fun _ _ => 0) 0)).board
        (hold_action (init0 (fun _ _ => 0) 0)).active 0 0 = true) ∧
    tick c10over 7 false = { c10over with last_fall := 7 } := by
  have h := C10_game_over (init0 (fun _ _ => 0) 0) 7 false
  have h2 := C10_game_over c10over 7 false
  exact ⟨h.1 rfl, h.2.1 rfl rfl, h2.2.2 rfl⟩

/-- Witness for C1 at the concrete initial state. -/
theorem C1_witness :
    (∀ (p : Piece) (xo yo : Int),
        collisionChecked (initState (fun _ _ => 0) 0).board p xo yo =
          some (collision (initState (fun _ _ => 0) 0).board p xo yo)) ∧
    ∀ c ∈ lock_writes (initState (fun _ _ => 0) 0).active,
        0 ≤ c.1 ∧ c.1 < (COLS : Int) ∧ 0 ≤ c.2 ∧ c.2 < (ROWS : Int) :=
  C1_no_out_of_bounds (Reachable.init (fun _ _ => 0) 0)

end Pytris
